import Mathlib

/-
  Verification development for the prompt-construction / response-parsing core
  of the git-commit-ai tool (GeminiClient.buildPrompt and
  GeminiClient.parseResponse, plus the shared data contracts in types.ts).

  The JavaScript runtime semantics relevant to the core are embedded
  explicitly: JSON.parse is modelled by an executable recursive-descent
  parser producing a Json value (numbers as exact rationals), JS property
  access (which throws a TypeError on a null receiver and yields undefined
  on other non-object receivers) is modelled with Except/Option, and the
  JS "x || default" idiom is modelled by jsOr over JS truthiness.
-/

namespace GCA

/-- The backtick character (used by markdown code fences). -/
def bt : Char := Char.ofNat 96

/-- Opening curly brace character. -/
def lbrace : Char := Char.ofNat 123

/-- Closing curly brace character. -/
def rbrace : Char := Char.ofNat 125

/-- JSON values as produced by JSON.parse: null, booleans, numbers
(idealized as exact rationals), strings, arrays and objects (field lists
in source order; a later duplicate key wins on lookup, as in JS). -/
inductive Json where
  | null : Json
  | bool (b : Bool) : Json
  | num (q : Rat) : Json
  | str (s : String) : Json
  | arr (elems : List Json) : Json
  | obj (fields : List (String × Json)) : Json

/-- JS truthiness of a JSON value: null, false, 0 and "" are falsy;
every array and object (even empty) is truthy. -/
def jsTruthy : Json → Bool
  | Json.null => false
  | Json.bool b => b
  | Json.num q => decide (q ≠ 0)
  | Json.str s => decide (s ≠ "")
  | Json.arr _ => true
  | Json.obj _ => true

/-- Field lookup on a JS object built by JSON.parse: with duplicate keys the
later assignment wins, so we take the last binding. -/
def lookupLast (fields : List (String × Json)) (k : String) : Option Json :=
  (fields.reverse.find? (fun p => decide (p.1 = k))).map (fun p => p.2)

/-- JS property access `v.k`: throws a TypeError when the receiver is null
(Except.error), yields undefined (none) on booleans, numbers, strings and
arrays, and looks the key up on objects. -/
def jsField (v : Json) (k : String) : Except Unit (Option Json) :=
  match v with
  | Json.null => Except.error ()
  | Json.obj fields => Except.ok (lookupLast fields k)
  | _ => Except.ok none

/-- The JS expression `x || d`: the value itself when truthy, otherwise the
default (undefined, i.e. a missing field, is falsy). -/
def jsOr (x : Option Json) (d : Json) : Json :=
  match x with
  | none => d
  | some v => if jsTruthy v then v else d

/-- CommitSuggestion from types.ts.  The TypeScript interface declares
`message: string; confidence: number; reasoning: string`, but those
annotations are erased at runtime and parseResponse copies whatever JSON
values the model returned, so the faithful runtime-level fields are Json. -/
structure CommitSuggestion where
  message : Json
  confidence : Json
  reasoning : Json

/-- File status tags from types.ts (GitDiff.status union type). -/
inductive DiffStatus where
  | added : DiffStatus
  | modified : DiffStatus
  | deleted : DiffStatus
  | renamed : DiffStatus

/-- GitDiff from types.ts. -/
structure GitDiff where
  file : String
  additions : Nat
  deletions : Nat
  changes : List String
  status : DiffStatus

/-- Config from types.ts. -/
structure Config where
  geminiApiKey : String
  conventionalCommits : Bool
  maxLength : Nat
  includeBody : Bool
  customPrompt : Option String

/-! ### A model of JSON.parse -/

/-- JSON insignificant whitespace. -/
def isJsonWs (c : Char) : Bool :=
  decide (c = ' ') || decide (c = Char.ofNat 9) || decide (c = '\n') || decide (c = Char.ofNat 13)

/-- Hexadecimal digit value. -/
def parseHex (c : Char) : Option Nat :=
  if '0' ≤ c ∧ c ≤ '9' then some (c.toNat - 48)
  else if 'a' ≤ c ∧ c ≤ 'f' then some (c.toNat - 87)
  else if 'A' ≤ c ∧ c ≤ 'F' then some (c.toNat - 55)
  else none

/-- Single-character JSON string escapes. -/
def escChar (e : Char) : Option Char :=
  if e = '"' then some '"'
  else if e = '\\' then some '\\'
  else if e = '/' then some '/'
  else if e = 'b' then some (Char.ofNat 8)
  else if e = 'f' then some (Char.ofNat 12)
  else if e = 'n' then some '\n'
  else if e = 'r' then some (Char.ofNat 13)
  else if e = 't' then some (Char.ofNat 9)
  else none

/-- Parse the body of a JSON string after the opening quote; returns the
decoded characters and the input remaining after the closing quote.
Raw control characters are rejected, as in JSON. -/
def parseStrChars : List Char → Option (List Char × List Char)
  | [] => none
  | '\\' :: 'u' :: h1 :: h2 :: h3 :: h4 :: rest => do
      let a ← parseHex h1
      let b ← parseHex h2
      let c ← parseHex h3
      let d ← parseHex h4
      let p ← parseStrChars rest
      some (Char.ofNat (((a * 16 + b) * 16 + c) * 16 + d) :: p.1, p.2)
  | '\\' :: e :: rest =>
      match escChar e with
      | some ch => (parseStrChars rest).map (fun p => (ch :: p.1, p.2))
      | none => none
  | c :: rest =>
      if c = '"' then some ([], rest)
      else if c.toNat < 32 then none
      else (parseStrChars rest).map (fun p => (c :: p.1, p.2))

/-- Decimal digits to a natural number. -/
def digitsToNat (ds : List Char) : Nat :=
  ds.foldl (fun a c => a * 10 + (c.toNat - 48)) 0

/-- Powers of ten (used to combine the integer part, the fraction digits
and the exponent of a JSON number into one exact rational). -/
def tenPow : Nat → Nat
  | 0 => 1
  | Nat.succ k => 10 * tenPow k

/-- Parse a JSON number (sign, integer part with the no-leading-zero rule,
optional fraction, optional exponent). -/
def parseNumber (l : List Char) : Option (Rat × List Char) :=
  let sl : Bool × List Char :=
    match l with
    | c :: r => if c = '-' then (true, r) else (false, l)
    | [] => (false, l)
  let neg := sl.1
  let l1 := sl.2
  let ds := l1.takeWhile Char.isDigit
  let l2 := l1.dropWhile Char.isDigit
  if ds.isEmpty then none
  else if 2 ≤ ds.length ∧ ds.head? = some '0' then none
  else
    let step2 : Option (List Char × List Char) :=
      match l2 with
      | c :: r =>
        if c = '.' then
          let fs := r.takeWhile Char.isDigit
          if fs.isEmpty then none else some (fs, r.dropWhile Char.isDigit)
        else some ([], l2)
      | [] => some ([], [])
    match step2 with
    | none => none
    | some (fs, l3) =>
      let step3 : Option (Int × List Char) :=
        match l3 with
        | c :: r =>
          if c = 'e' ∨ c = 'E' then
            match r with
            | s :: r2 =>
              if s = '+' then
                let es := r2.takeWhile Char.isDigit
                if es.isEmpty then none
                else some ((digitsToNat es : Int), r2.dropWhile Char.isDigit)
              else if s = '-' then
                let es := r2.takeWhile Char.isDigit
                if es.isEmpty then none
                else some (-(digitsToNat es : Int), r2.dropWhile Char.isDigit)
              else
                let es := r.takeWhile Char.isDigit
                if es.isEmpty then none
                else some ((digitsToNat es : Int), r.dropWhile Char.isDigit)
            | [] => none
          else some (0, l3)
        | [] => some (0, [])
      match step3 with
      | none => none
      | some (e, rest) =>
        let base : Nat := digitsToNat ds * tenPow fs.length + digitsToNat fs
        let sNum : Int := if neg then Int.neg (Int.ofNat base) else Int.ofNat base
        let v : Rat :=
          if 0 ≤ e then mkRat (Int.mul sNum (Int.ofNat (tenPow e.toNat))) (tenPow fs.length)
          else mkRat sNum (tenPow fs.length * tenPow (-e).toNat)
        some (v, rest)

mutual

/-- Parse one JSON value (fuel-bounded recursive descent; the fuel passed by
jsonParse exceeds what any input of that length can consume, since every
recursive step consumes at least one input character). -/
def parseValue : Nat → List Char → Option (Json × List Char)
  | 0, _ => none
  | Nat.succ fuel, l =>
    let l1 := l.dropWhile isJsonWs
    if ("true".data).isPrefixOf l1 then some (Json.bool true, l1.drop 4)
    else if ("false".data).isPrefixOf l1 then some (Json.bool false, l1.drop 5)
    else if ("null".data).isPrefixOf l1 then some (Json.null, l1.drop 4)
    else
      match l1 with
      | [] => none
      | c :: rest =>
        if c = '"' then
          (parseStrChars rest).map (fun p => (Json.str (String.mk p.1), p.2))
        else if c = '[' then
          let r1 := rest.dropWhile isJsonWs
          match r1 with
          | c2 :: r2 =>
            if c2 = ']' then some (Json.arr [], r2)
            else (parseItems fuel r1).map (fun p => (Json.arr p.1, p.2))
          | [] => none
        else if c = lbrace then
          let r1 := rest.dropWhile isJsonWs
          match r1 with
          | c2 :: r2 =>
            if c2 = rbrace then some (Json.obj [], r2)
            else (parseMembers fuel r1).map (fun p => (Json.obj p.1, p.2))
          | [] => none
        else if c = '-' ∨ c.isDigit then
          (parseNumber l1).map (fun p => (Json.num p.1, p.2))
        else none

/-- Parse the comma-separated items of a non-empty JSON array, up to and
including the closing bracket. -/
def parseItems : Nat → List Char → Option (List Json × List Char)
  | 0, _ => none
  | Nat.succ fuel, l => do
    let (v, r) ← parseValue fuel l
    let r1 := r.dropWhile isJsonWs
    match r1 with
    | c :: r2 =>
      if c = ',' then do
        let (vs, rr) ← parseItems fuel r2
        some (v :: vs, rr)
      else if c = ']' then some ([v], r2)
      else none
    | [] => none

/-- Parse the comma-separated members of a non-empty JSON object, up to and
including the closing brace. -/
def parseMembers : Nat → List Char → Option (List (String × Json) × List Char)
  | 0, _ => none
  | Nat.succ fuel, l =>
    let l1 := l.dropWhile isJsonWs
    match l1 with
    | c :: rest =>
      if c = '"' then do
        let (ks, r1) ← parseStrChars rest
        let r2 := r1.dropWhile isJsonWs
        match r2 with
        | c2 :: r3 =>
          if c2 = ':' then do
            let (v, r4) ← parseValue fuel r3
            let r5 := r4.dropWhile isJsonWs
            match r5 with
            | c3 :: r6 =>
              if c3 = ',' then do
                let (ms, rr) ← parseMembers fuel r6
                some ((String.mk ks, v) :: ms, rr)
              else if c3 = rbrace then some ([(String.mk ks, v)], r6)
              else none
            | [] => none
          else none
        | [] => none
      else none
    | [] => none

end

/-- The model of JSON.parse: parse one value and require that only
whitespace remains; none models a thrown SyntaxError. -/
def jsonParse (s : String) : Option Json :=
  match parseValue (2 * s.length + 2) s.data with
  | some (v, rest) => if (rest.dropWhile isJsonWs).isEmpty then some v else none
  | none => none

/-! ### The response-cleaning step of parseResponse

parseResponse first removes every markdown code-fence marker from the raw
response, exactly as the two global regex replaces do (the pattern is the
fence token, optionally followed by one newline which is consumed greedily;
matches are found left to right and do not overlap), and then trims
whitespace from both ends. -/

/-- The fence marker of the first replace pass (three backticks and the
word json). -/
def fence7 : List Char := [bt, bt, bt, 'j', 's', 'o', 'n']

/-- The fence marker of the second replace pass (three backticks). -/
def fence3 : List Char := [bt, bt, bt]

/-- Consume one leading newline if present (the optional newline of the
fence-stripping pattern). -/
def dropNl : List Char → List Char
  | [] => []
  | c :: r => if c = '\n' then r else c :: r

/-- Fuel-driven left-to-right scan removing every occurrence of the marker
(together with one following newline when present); the scan resumes after
the removed match, so matches never overlap, as with a global regex
replace by the empty string. -/
def stripPatF (pat : List Char) : Nat → List Char → List Char
  | _, [] => []
  | 0, l => l
  | Nat.succ n, c :: cs =>
    if pat.isPrefixOf (c :: cs) then stripPatF pat n (dropNl ((c :: cs).drop pat.length))
    else c :: stripPatF pat n cs

/-- Remove every occurrence of the marker from the text (the fuel equal to
the text length is always sufficient, since every scan step consumes at
least one character when the marker is non-empty). -/
def stripPat (pat : List Char) (l : List Char) : List Char :=
  stripPatF pat l.length l

/-- JS String.prototype.trim on a character list: drop whitespace from the
back, then from the front. -/
def trimChars (l : List Char) : List Char :=
  ((l.reverse.dropWhile Char.isWhitespace).reverse).dropWhile Char.isWhitespace

/-- The cleanResponse value of parseResponse: both fence-stripping replace
passes (the longer marker first), then trim. -/
def cleanResponse (s : String) : String :=
  String.mk (trimChars (stripPat fence3 (stripPat fence7 s.data)))

/-! ### The structured (primary) path of parseResponse -/

/-- JS property access on a receiver that is not null (so no TypeError is
possible): the field on an object, undefined otherwise. -/
def fieldOf (e : Json) (k : String) : Option Json :=
  match e with
  | Json.obj fields => lookupLast fields k
  | _ => none

/-- The Suggestion a structured-path element is mapped to: each field is
the element's own field when present and truthy, and the documented
default otherwise (empty message, confidence 50, placeholder reasoning). -/
def mkSuggestion (e : Json) : CommitSuggestion :=
  { message := jsOr (fieldOf e "message") (Json.str "")
    confidence := jsOr (fieldOf e "confidence") (Json.num 50)
    reasoning := jsOr (fieldOf e "reasoning") (Json.str "No reasoning provided") }

/-- The structured-path mapping of one element with JS exception behaviour:
property access on a null element throws a TypeError. -/
def mkSuggestionE (e : Json) : Except Unit CommitSuggestion := do
  let m ← jsField e "message"
  let c ← jsField e "confidence"
  let r ← jsField e "reasoning"
  Except.ok { message := jsOr m (Json.str "")
              confidence := jsOr c (Json.num 50)
              reasoning := jsOr r (Json.str "No reasoning provided") }

/-- The body of parseResponse's try block: JSON.parse the cleaned response
(a parse failure throws), access the suggestions property (throws on a
null root), and when that property holds an array (arrays are always
truthy, so the JS guard `parsed.suggestions && Array.isArray(...)` is
exactly this pattern) map every element to a Suggestion.  Except.error is
a thrown exception reaching the catch; Except.ok none is a normal exit of
the try block without a return, which falls through to the fallback. -/
def structuredTry (response : String) : Except Unit (Option (List CommitSuggestion)) :=
  match jsonParse (cleanResponse response) with
  | none => Except.error ()
  | some v =>
    match jsField v "suggestions" with
    | Except.error e => Except.error e
    | Except.ok fOpt =>
      match fOpt with
      | some (Json.arr elems) => (elems.mapM mkSuggestionE).map some
      | _ => Except.ok none

/-! ### The fallback path of parseResponse -/

/-- JS String.prototype.split on the newline character (empty pieces kept). -/
def splitLines : List Char → List (List Char)
  | [] => [[]]
  | c :: cs =>
    if c = '\n' then [] :: splitLines cs
    else
      match splitLines cs with
      | [] => [[c]]
      | h :: t => (c :: h) :: t

/-- First character test (JS startsWith with a single-character needle). -/
def startsWithChar (c : Char) : List Char → Bool
  | [] => false
  | d :: _ => decide (d = c)

/-- The fallback keep-condition on a line: it contains a colon and starts
with neither an opening nor a closing curly brace. -/
def lineQualifies (l : List Char) : Bool :=
  l.any (fun c => decide (c = ':')) && !(startsWithChar lbrace l) && !(startsWithChar rbrace l)

/-- The lines the fallback path turns into Suggestions: split the raw
response on newlines, keep the non-blank lines (truthy trim), then keep
the qualifying ones. -/
def fallbackLines (response : String) : List (List Char) :=
  ((splitLines response.data).filter (fun l => !(trimChars l).isEmpty)).filter lineQualifies

/-- The Suggestion built from one qualifying fallback line. -/
def mkFallbackSuggestion (l : List Char) : CommitSuggestion :=
  { message := Json.str (String.mk (trimChars l))
    confidence := Json.num 70
    reasoning := Json.str "Extracted from AI response" }

/-- The fallback extraction: one Suggestion per qualifying line, then
slice(0, 3). -/
def fallback (response : String) : List CommitSuggestion :=
  ((fallbackLines response).map mkFallbackSuggestion).take 3

/-- GeminiClient.parseResponse: return the structured result when the try
block returns one; on a thrown-and-caught exception, or when the try block
falls through (no suggestions array), run the fallback extraction. -/
def parseResponse (response : String) : List CommitSuggestion :=
  match structuredTry response with
  | Except.ok (some l) => l
  | _ => fallback response

/-- The proposition that the structured path does not produce a result for
this response, i.e. the fallback path decides the output. -/
def structuredFails (s : String) : Prop :=
  ∀ l, structuredTry s ≠ Except.ok (some l)

/-! ### GeminiClient.buildPrompt -/

/-- The status tag rendered into the prompt (the TS status union value). -/
def statusStr : DiffStatus → String
  | DiffStatus.added => "added"
  | DiffStatus.modified => "modified"
  | DiffStatus.deleted => "deleted"
  | DiffStatus.renamed => "renamed"

/-- JS Array.prototype.join: concatenate with the separator between
consecutive elements. -/
def joinSep (sep : String) : List String → String
  | [] => ""
  | [x] => x
  | x :: y :: xs => x ++ sep ++ joinSep sep (y :: xs)

/-- The per-file block of the changes description: file path, the
parenthesized plus-additions minus-deletions stat pair, the status tag,
and the first five of the record's change lines. -/
def renderDiff (diff : GitDiff) : String :=
  "File: " ++ diff.file ++ " (+" ++ toString diff.additions ++ "/-" ++
    toString diff.deletions ++ ")\nStatus: " ++ statusStr diff.status ++
    "\nKey changes:\n  " ++ joinSep "\n  " (diff.changes.take 5)

/-- The changes section: the per-file blocks joined by blank lines. -/
def changesDescription (diffs : List GitDiff) : String :=
  joinSep "\n\n" (diffs.map renderDiff)

/-- The recent-commits context block: empty when there are no recent
commits, otherwise the heading plus the first five subjects as dashed
lines, followed by a blank line. -/
def recentCtx (recentCommits : List String) : String :=
  if recentCommits.length > 0 then
    "Recent commits for context:\n" ++
      joinSep "\n" ((recentCommits.take 5).map (fun c => "- " ++ c)) ++ "\n\n"
  else ""

/-- The requirements line selected by config.conventionalCommits. -/
def reqFormatLine (config : Config) : String :=
  if config.conventionalCommits then
    "- Use Conventional Commits format (type(scope): description)"
  else "- Use clear, descriptive commit messages"

/-- The requirements line selected by config.includeBody. -/
def reqBodyLine (config : Config) : String :=
  if config.includeBody then "- Include a body if the change is complex"
  else "- Keep it concise, no body needed"

/-- The optional additional-instructions block: appended only when
config.customPrompt is defined and truthy (a present empty string is falsy
in JS and renders nothing). -/
def customBlock (config : Config) : String :=
  match config.customPrompt with
  | some s => if s = "" then "" else "\nADDITIONAL INSTRUCTIONS:\n" ++ s
  | none => ""

/-- The part of the prompt template before the recent-commits context
block. -/
def promptPre (branchName : String) : String :=
  "You are an expert developer assistant that generates high-quality git commit messages.\n\nCONTEXT:\nBranch: "
    ++ branchName ++ "\n"

/-- The part of the prompt template following the changes section: the
requirements block, the commit-type enumeration, the generate-3
instruction, the JSON shape example and the optional extra-instructions
block. -/
def promptTail (config : Config) : String :=
  "\n\nREQUIREMENTS:\n" ++ reqFormatLine config ++
  "\n- Maximum length: " ++ toString config.maxLength ++
  " characters\n- Be specific about what changed and why\n- Use present tense (\"add\" not \"added\")\n- Start with lowercase unless it\x27s a proper noun\n"
  ++ reqBodyLine config ++
  "\n\nCOMMIT TYPES (if using conventional commits):\n- feat: new feature\n- fix: bug fix\n- docs: documentation changes\n- style: formatting, missing semicolons, etc.\n- refactor: code restructuring without changing functionality\n- test: adding or updating tests\n- chore: maintenance tasks, dependencies, build process\n\nGenerate 3 different commit message suggestions, ranked by quality.\nFormat your response as JSON:\n\n\x7b\n  \"suggestions\": [\n    \x7b\n      \"message\": \"commit message here\",\n      \"confidence\": 95,\n      \"reasoning\": \"why this message is good\"\n    \x7d,\n    \x7b\n      \"message\": \"alternative message\",\n      \"confidence\": 85,\n      \"reasoning\": \"explanation for this option\"\n    \x7d,\n    \x7b\n      \"message\": \"third option\",\n      \"confidence\": 75,\n      \"reasoning\": \"why this could work\"\n    \x7d\n  ]\n\x7d\n\n"
  ++ customBlock config

/-- The part of the prompt template after the recent-commits context
block: the changes section followed by the fixed template tail. -/
def promptPost (diffs : List GitDiff) (config : Config) : String :=
  "\n\nCHANGES TO COMMIT:\n" ++ changesDescription diffs ++ promptTail config

/-- GeminiClient.buildPrompt: the full prompt template with the branch
name, the recent-commits context, the rendered changes and the
config-dependent blocks interpolated. -/
def buildPrompt (diffs : List GitDiff) (config : Config) (recentCommits : List String)
    (branchName : String) : String :=
  promptPre branchName ++ recentCtx recentCommits ++ promptPost diffs config

/-! ### Substring occurrence -/

/-- p occurs as a contiguous segment of l. -/
def SegOf (p l : List Char) : Prop := ∃ pre post, l = pre ++ p ++ post

/-- Executable sliding-window occurrence check. -/
def occursIn (p : List Char) : List Char → Bool
  | [] => p.isEmpty
  | c :: t => p.isPrefixOf (c :: t) || occursIn p t

/-- Sliding-window check for a run of three backticks (a markdown fence
marker) anywhere in the text. -/
def hasFence : List Char → Bool
  | a :: b :: c :: r =>
    (decide (a = bt) && decide (b = bt) && decide (c = bt)) || hasFence (b :: c :: r)
  | _ => false

/-- A payload wrapped in a json-tagged fenced code block. -/
def wrapJson (s : String) : String :=
  String.mk (fence7 ++ '\n' :: s.data ++ '\n' :: fence3)

/-- A payload wrapped in a plain fenced code block. -/
def wrapBare (s : String) : String :=
  String.mk (fence3 ++ '\n' :: s.data ++ '\n' :: fence3)

/-! ### Basic lemmas about the embedding -/

theorem sdata_append (a b : String) : (a ++ b).data = a.data ++ b.data := rfl

theorem sdata_inj {a b : String} (h : a.data = b.data) : a = b := by
  cases a
  cases b
  exact congrArg String.mk h

theorem smk_ne_empty {l : List Char} (h : l ≠ []) : String.mk l ≠ "" := by
  intro he
  exact h (congrArg String.data he)

theorem jsTruthy_jsOr {x : Option Json} {d : Json} (hd : jsTruthy d = true) :
    jsTruthy (jsOr x d) = true := by
  cases x with
  | none => exact hd
  | some v =>
    simp only [jsOr]
    split
    · assumption
    · exact hd

theorem jsTruthy_str_ne {j : Json} (h : jsTruthy j = true) :
    ∀ m, j = Json.str m → m ≠ "" := by
  intro m hm
  subst hm
  simpa [jsTruthy] using h

theorem mkSuggestionE_ok {e : Json} (h : e ≠ Json.null) :
    mkSuggestionE e = Except.ok (mkSuggestion e) := by
  cases e
  · exact absurd rfl h
  · rfl
  · rfl
  · rfl
  · rfl
  · rfl

theorem mapM_mkSuggestionE_ok {elems : List Json} (h : ∀ e ∈ elems, e ≠ Json.null) :
    elems.mapM mkSuggestionE = Except.ok (elems.map mkSuggestion) := by
  induction elems with
  | nil => rfl
  | cons a t ih =>
    have ha : a ≠ Json.null := h a (List.mem_cons_self a t)
    have ht : ∀ e ∈ t, e ≠ Json.null := fun e he => h e (List.mem_cons_of_mem a he)
    rw [List.mapM_cons, mkSuggestionE_ok ha, ih ht]
    rfl

theorem mapM_mkSuggestionE_inv {elems : List Json} :
    ∀ {l}, elems.mapM mkSuggestionE = Except.ok l → l = elems.map mkSuggestion := by
  induction elems with
  | nil =>
    intro l h
    rw [List.mapM_nil] at h
    exact (Except.ok.inj h).symm
  | cons a t ih =>
    intro l h
    rw [List.mapM_cons] at h
    by_cases ha : a = Json.null
    · subst ha
      rw [show mkSuggestionE Json.null = Except.error () from rfl] at h
      exact Except.noConfusion h
    · rw [mkSuggestionE_ok ha] at h
      cases ht : List.mapM mkSuggestionE t with
      | error e =>
        rw [ht] at h
        exact Except.noConfusion h
      | ok l2 =>
        rw [ht] at h
        have := Except.ok.inj h
        rw [List.map_cons, ← ih ht, this]

theorem structuredTry_eval {s : String} {v : Json} {elems : List Json}
    (hj : jsonParse (cleanResponse s) = some v)
    (hf : jsField v "suggestions" = Except.ok (some (Json.arr elems)))
    (hn : ∀ e ∈ elems, e ≠ Json.null) :
    structuredTry s = Except.ok (some (elems.map mkSuggestion)) := by
  unfold structuredTry
  simp only [hj, hf, mapM_mkSuggestionE_ok hn]
  rfl

theorem structuredTry_ok_inv {s : String} {l : List CommitSuggestion}
    (h : structuredTry s = Except.ok (some l)) :
    ∃ elems : List Json, l = elems.map mkSuggestion := by
  unfold structuredTry at h
  cases hj : jsonParse (cleanResponse s) with
  | none =>
    simp only [hj] at h
    exact Except.noConfusion h
  | some v =>
    simp only [hj] at h
    cases hf : jsField v "suggestions" with
    | error e =>
      simp only [hf] at h
      exact Except.noConfusion h
    | ok fOpt =>
      simp only [hf] at h
      cases fOpt with
      | none => exact Option.noConfusion (Except.ok.inj h)
      | some j =>
        cases j with
        | arr elems =>
          cases hm : List.mapM mkSuggestionE elems with
          | error e =>
            simp only [hm, Except.map] at h
            exact Except.noConfusion h
          | ok l2 =>
            simp only [hm, Except.map] at h
            have h3 : l2 = l := Option.some.inj (Except.ok.inj h)
            exact ⟨elems, by rw [← h3, mapM_mkSuggestionE_inv hm]⟩
        | null => exact Option.noConfusion (Except.ok.inj h)
        | bool b => exact Option.noConfusion (Except.ok.inj h)
        | num q => exact Option.noConfusion (Except.ok.inj h)
        | str m => exact Option.noConfusion (Except.ok.inj h)
        | obj fs => exact Option.noConfusion (Except.ok.inj h)

theorem parseResponse_of_structured {s : String} {l : List CommitSuggestion}
    (h : structuredTry s = Except.ok (some l)) : parseResponse s = l := by
  unfold parseResponse
  rw [h]

theorem parseResponse_of_fails {s : String} (h : structuredFails s) :
    parseResponse s = fallback s := by
  unfold parseResponse
  cases hst : structuredTry s with
  | error e => rfl
  | ok o =>
    cases o with
    | none => rfl
    | some l => exact absurd hst (h l)

/-! ### Lemmas about the fence-stripping scan -/

theorem dropNl_length_le (l : List Char) : (dropNl l).length ≤ l.length := by
  cases l with
  | nil => exact Nat.le_refl 0
  | cons c r =>
    simp only [dropNl]
    split
    · exact Nat.le_succ _
    · exact Nat.le_refl _

theorem stripPatF_congr {pat : List Char} (hp : pat ≠ []) :
    ∀ (f1 f2 : Nat) (l : List Char), l.length ≤ f1 → l.length ≤ f2 →
      stripPatF pat f1 l = stripPatF pat f2 l := by
  intro f1
  induction f1 with
  | zero =>
    intro f2 l h1 _
    have hl : l = [] := List.eq_nil_of_length_eq_zero (Nat.le_zero.mp h1)
    subst hl
    cases f2 <;> rfl
  | succ n ih =>
    intro f2 l h1 h2
    cases l with
    | nil => cases f2 <;> rfl
    | cons c cs =>
      cases f2 with
      | zero => exact absurd h2 (by simp)
      | succ m =>
        have hlen : (dropNl ((c :: cs).drop pat.length)).length ≤ cs.length := by
          have hd := dropNl_length_le ((c :: cs).drop pat.length)
          have hdrop : ((c :: cs).drop pat.length).length = (c :: cs).length - pat.length :=
            List.length_drop _ _
          have hpat : 1 ≤ pat.length := List.length_pos.mpr hp
          simp only [List.length_cons] at hdrop
          omega
        have hcs : cs.length ≤ n := Nat.lt_succ_iff.mp (Nat.lt_of_lt_of_le (Nat.lt_succ_self _) (by simpa using h1))
        have hcs2 : cs.length ≤ m := Nat.lt_succ_iff.mp (Nat.lt_of_lt_of_le (Nat.lt_succ_self _) (by simpa using h2))
        simp only [stripPatF]
        split
        · exact ih m (dropNl ((c :: cs).drop pat.length)) (Nat.le_trans hlen hcs) (Nat.le_trans hlen hcs2)
        · exact congrArg (List.cons c) (ih m cs hcs hcs2)

theorem stripPat_cons {pat : List Char} (hp : pat ≠ []) (c : Char) (cs : List Char) :
    stripPat pat (c :: cs) =
      if pat.isPrefixOf (c :: cs) then stripPat pat (dropNl ((c :: cs).drop pat.length))
      else c :: stripPat pat cs := by
  have hlen : (dropNl ((c :: cs).drop pat.length)).length ≤ cs.length := by
    have hd := dropNl_length_le ((c :: cs).drop pat.length)
    have hdrop : ((c :: cs).drop pat.length).length = (c :: cs).length - pat.length :=
      List.length_drop _ _
    have hpat : 1 ≤ pat.length := List.length_pos.mpr hp
    simp only [List.length_cons] at hdrop
    omega
  show stripPatF pat (c :: cs).length (c :: cs) = _
  simp only [List.length_cons, stripPatF]
  split
  · exact stripPatF_congr hp cs.length _ _ hlen (Nat.le_refl _)
  · exact congrArg (List.cons c)
      (stripPatF_congr hp cs.length cs.length cs (Nat.le_refl _) (Nat.le_refl _))

theorem fence7_ne_nil : fence7 ≠ [] := by simp [fence7]

theorem fence3_ne_nil : fence3 ≠ [] := by simp [fence3]

theorem hasFence_tail {c : Char} {cs : List Char} (h : hasFence (c :: cs) = false) :
    hasFence cs = false := by
  cases cs with
  | nil => rfl
  | cons b t =>
    cases t with
    | nil => rfl
    | cons d r =>
      simp only [hasFence, Bool.or_eq_false_iff] at h
      exact h.2

theorem not_prefixOf_fence3 {l : List Char} (h : hasFence l = false) :
    fence3.isPrefixOf l = false := by
  match l with
  | [] => rfl
  | [a] => simp [fence3, List.isPrefixOf]
  | [a, b] => simp [fence3, List.isPrefixOf]
  | a :: b :: c :: r =>
    simp only [hasFence, Bool.or_eq_false_iff] at h
    have h1 : ¬(a = bt) ∨ ¬(b = bt) ∨ ¬(c = bt) := by
      by_cases ha : a = bt
      · by_cases hb : b = bt
        · by_cases hc : c = bt
          · exfalso
            have hh := h.1
            simp [ha, hb, hc] at hh
          · exact Or.inr (Or.inr hc)
        · exact Or.inr (Or.inl hb)
      · exact Or.inl ha
    have g : (bt == a) = false ∨ (bt == b) = false ∨ (bt == c) = false := by
      rcases h1 with h1 | h1 | h1
      · exact Or.inl (beq_eq_false_iff_ne.mpr (fun hx => h1 hx.symm))
      · exact Or.inr (Or.inl (beq_eq_false_iff_ne.mpr (fun hx => h1 hx.symm)))
      · exact Or.inr (Or.inr (beq_eq_false_iff_ne.mpr (fun hx => h1 hx.symm)))
    rcases g with g | g | g <;> simp [fence3, List.isPrefixOf, g]

theorem fence7_prefixOf_imp {l : List Char} (h7 : fence7.isPrefixOf l = true) :
    fence3.isPrefixOf l = true := by
  match l with
  | [] => simp [fence7, List.isPrefixOf] at h7
  | [a] => simp [fence7, List.isPrefixOf] at h7
  | [a, b] => simp [fence7, List.isPrefixOf] at h7
  | a :: b :: c :: r =>
    simp only [fence7, fence3, List.isPrefixOf, Bool.and_eq_true] at h7 ⊢
    exact ⟨h7.1, h7.2.1, h7.2.2.1, trivial⟩

theorem fence7_notPre_of_fence3 {l : List Char} (h : fence3.isPrefixOf l = false) :
    fence7.isPrefixOf l = false := by
  cases hp : fence7.isPrefixOf l with
  | false => rfl
  | true =>
    rw [fence7_prefixOf_imp hp] at h
    exact Bool.noConfusion h

theorem fence3_notPre_glue {s : List Char} (t : List Char) (h : hasFence s = false)
    (hne : s ≠ []) : fence3.isPrefixOf (s ++ '\n' :: t) = false := by
  match s with
  | [] => exact absurd rfl hne
  | [a] =>
    simp [fence3, List.isPrefixOf, (by decide : (bt == '\n') = false)]
  | [a, b] =>
    simp [fence3, List.isPrefixOf, (by decide : (bt == '\n') = false)]
  | a :: b :: c :: r =>
    have h3 := not_prefixOf_fence3 h
    simp only [fence3, List.isPrefixOf, List.cons_append] at h3 ⊢
    exact h3

theorem isPrefixOf_self_append (p t : List Char) : p.isPrefixOf (p ++ t) = true := by
  induction p with
  | nil => simp [List.isPrefixOf]
  | cons a as ih => simp [List.isPrefixOf, ih]

theorem strip7_glue {s : List Char} (h : hasFence s = false) :
    stripPat fence7 (s ++ '\n' :: fence3) = s ++ '\n' :: fence3 := by
  induction s with
  | nil => rfl
  | cons c cs ih =>
    have hpre : fence7.isPrefixOf ((c :: cs) ++ '\n' :: fence3) = false :=
      fence7_notPre_of_fence3 (fence3_notPre_glue fence3 h (by simp))
    rw [List.cons_append] at hpre ⊢
    rw [stripPat_cons fence7_ne_nil, if_neg (by simp [hpre]), ih (hasFence_tail h)]

theorem strip3_glue {s : List Char} (h : hasFence s = false) :
    stripPat fence3 (s ++ '\n' :: fence3) = s ++ ['\n'] := by
  induction s with
  | nil => rfl
  | cons c cs ih =>
    have hpre : fence3.isPrefixOf ((c :: cs) ++ '\n' :: fence3) = false :=
      fence3_notPre_glue fence3 h (by simp)
    rw [List.cons_append] at hpre
    rw [List.cons_append, List.cons_append]
    rw [stripPat_cons fence3_ne_nil, if_neg (by simp [hpre]), ih (hasFence_tail h)]

theorem strip7_id {s : List Char} (h : hasFence s = false) :
    stripPat fence7 s = s := by
  induction s with
  | nil => rfl
  | cons c cs ih =>
    have hpre : fence7.isPrefixOf (c :: cs) = false :=
      fence7_notPre_of_fence3 (not_prefixOf_fence3 h)
    rw [stripPat_cons fence7_ne_nil, if_neg (by simp [hpre]), ih (hasFence_tail h)]

theorem strip3_id {s : List Char} (h : hasFence s = false) :
    stripPat fence3 s = s := by
  induction s with
  | nil => rfl
  | cons c cs ih =>
    have hpre : fence3.isPrefixOf (c :: cs) = false := not_prefixOf_fence3 h
    rw [stripPat_cons fence3_ne_nil, if_neg (by simp [hpre]), ih (hasFence_tail h)]

theorem strip7_head_wrap (X : List Char) :
    stripPat fence7 (fence7 ++ '\n' :: X) = stripPat fence7 X := by
  show stripPat fence7 (bt :: bt :: bt :: 'j' :: 's' :: 'o' :: 'n' :: '\n' :: X) = _
  rw [stripPat_cons fence7_ne_nil,
    if_pos (show fence7.isPrefixOf (bt :: bt :: bt :: 'j' :: 's' :: 'o' :: 'n' :: '\n' :: X) = true
      from isPrefixOf_self_append fence7 ('\n' :: X))]
  rfl

theorem strip3_head_wrap (X : List Char) :
    stripPat fence3 (fence3 ++ '\n' :: X) = stripPat fence3 X := by
  show stripPat fence3 (bt :: bt :: bt :: '\n' :: X) = _
  rw [stripPat_cons fence3_ne_nil,
    if_pos (show fence3.isPrefixOf (bt :: bt :: bt :: '\n' :: X) = true
      from isPrefixOf_self_append fence3 ('\n' :: X))]
  rfl

theorem strip7_after_fence3 (R : List Char) :
    stripPat fence7 (fence3 ++ '\n' :: R) = fence3 ++ '\n' :: stripPat fence7 R := by
  have c0 : fence7.isPrefixOf (bt :: bt :: bt :: '\n' :: R) = false := by
    simp [fence7, List.isPrefixOf, (by decide : ('j' == '\n') = false)]
  have c1 : fence7.isPrefixOf (bt :: bt :: '\n' :: R) = false := by
    simp [fence7, List.isPrefixOf, (by decide : (bt == '\n') = false)]
  have c2 : fence7.isPrefixOf (bt :: '\n' :: R) = false := by
    simp [fence7, List.isPrefixOf, (by decide : (bt == '\n') = false)]
  have c3 : fence7.isPrefixOf ('\n' :: R) = false := by
    simp [fence7, List.isPrefixOf, (by decide : (bt == '\n') = false)]
  show stripPat fence7 (bt :: bt :: bt :: '\n' :: R) = bt :: bt :: bt :: '\n' :: stripPat fence7 R
  rw [stripPat_cons fence7_ne_nil, if_neg (by simp [c0]),
    stripPat_cons fence7_ne_nil, if_neg (by simp [c1]),
    stripPat_cons fence7_ne_nil, if_neg (by simp [c2]),
    stripPat_cons fence7_ne_nil, if_neg (by simp [c3])]

theorem trim_append_newline (l : List Char) : trimChars (l ++ ['\n']) = trimChars l := by
  unfold trimChars
  have h1 : (l ++ ['\n']).reverse = '\n' :: l.reverse := by simp
  rw [h1, List.dropWhile_cons, if_pos (by decide : Char.isWhitespace '\n' = true)]

theorem clean_wrapJson {s : String} (h : hasFence s.data = false) :
    cleanResponse (wrapJson s) = cleanResponse s := by
  unfold cleanResponse
  have key1 : stripPat fence7 ((wrapJson s).data) = s.data ++ '\n' :: fence3 := by
    show stripPat fence7 (fence7 ++ '\n' :: (s.data ++ '\n' :: fence3)) = _
    rw [strip7_head_wrap]
    exact strip7_glue h
  rw [key1, strip3_glue h, trim_append_newline, strip7_id h, strip3_id h]

theorem clean_wrapBare {s : String} (h : hasFence s.data = false) :
    cleanResponse (wrapBare s) = cleanResponse s := by
  unfold cleanResponse
  have key1 : stripPat fence7 ((wrapBare s).data) = fence3 ++ '\n' :: (s.data ++ '\n' :: fence3) := by
    show stripPat fence7 (fence3 ++ '\n' :: (s.data ++ '\n' :: fence3)) = _
    rw [strip7_after_fence3, strip7_glue h]
  have key2 : stripPat fence3 (fence3 ++ '\n' :: (s.data ++ '\n' :: fence3)) = s.data ++ ['\n'] := by
    rw [strip3_head_wrap]
    exact strip3_glue h
  rw [key1, key2, trim_append_newline, strip7_id h, strip3_id h]

/-! ### Lemmas about the fallback line split -/

theorem splitLines_ne_nil (l : List Char) : splitLines l ≠ [] := by
  induction l with
  | nil => simp [splitLines]
  | cons c cs ih =>
    simp only [splitLines]
    split
    · exact List.cons_ne_nil _ _
    · cases hs : splitLines cs with
      | nil => simp only [hs]; exact List.cons_ne_nil _ _
      | cons h t => simp only [hs]; exact List.cons_ne_nil _ _

theorem splitLines_append (a b : List Char) :
    splitLines (a ++ '\n' :: b) = splitLines a ++ splitLines b := by
  induction a with
  | nil => simp [splitLines]
  | cons c cs ih =>
    by_cases hc : c = '\n'
    · subst hc
      have e1 : ∀ x, splitLines ('\n' :: x) = [] :: splitLines x := fun x => by
        simp [splitLines]
      rw [List.cons_append, e1, e1, ih, List.cons_append]
    · have e2 : ∀ x, splitLines (c :: x)
          = match splitLines x with | [] => [[c]] | h :: t => (c :: h) :: t := fun x => by
        simp [splitLines, hc]
      cases hs : splitLines cs with
      | nil => exact absurd hs (splitLines_ne_nil cs)
      | cons h t =>
        rw [List.cons_append, e2, e2, ih, hs]
        simp [List.cons_append]

theorem fallbackLines_wrap (pre : List Char) (s : String)
    (hsplit : splitLines pre = [pre]) (hq : lineQualifies pre = false) :
    fallbackLines (String.mk (pre ++ '\n' :: s.data ++ '\n' :: fence3)) = fallbackLines s := by
  unfold fallbackLines
  have hd : (String.mk (pre ++ '\n' :: s.data ++ '\n' :: fence3)).data
      = pre ++ '\n' :: (s.data ++ '\n' :: fence3) := by simp
  rw [hd, splitLines_append, splitLines_append, hsplit,
    (show splitLines fence3 = [fence3] from rfl)]
  by_cases hb : (!(trimChars pre).isEmpty) = true
  · simp [List.filter_append, List.filter, List.filter_filter, hb, hq,
      (by decide : lineQualifies fence3 = false),
      (by decide : (!(trimChars fence3).isEmpty) = true)]
  · have hb2 : (!(trimChars pre).isEmpty) = false := by
      revert hb
      cases (!(trimChars pre).isEmpty) <;> simp
    simp [List.filter_append, List.filter, List.filter_filter, hb2, hq,
      (by decide : lineQualifies fence3 = false),
      (by decide : (!(trimChars fence3).isEmpty) = true)]

theorem fallback_wrapJson (s : String) : fallback (wrapJson s) = fallback s := by
  unfold fallback
  rw [show wrapJson s = String.mk (fence7 ++ '\n' :: s.data ++ '\n' :: fence3) from rfl,
    fallbackLines_wrap fence7 s rfl (by decide)]

theorem fallback_wrapBare (s : String) : fallback (wrapBare s) = fallback s := by
  unfold fallback
  rw [show wrapBare s = String.mk (fence3 ++ '\n' :: s.data ++ '\n' :: fence3) from rfl,
    fallbackLines_wrap fence3 s rfl (by decide)]

theorem parseResponse_clean_congr {s1 s2 : String}
    (hc : cleanResponse s1 = cleanResponse s2) (hf : fallback s1 = fallback s2) :
    parseResponse s1 = parseResponse s2 := by
  have hst : structuredTry s1 = structuredTry s2 := by
    unfold structuredTry
    rw [hc]
  unfold parseResponse
  rw [hst, hf]

/-! ### Segment-occurrence lemmas -/

theorem SegOf_embed {p m : List Char} (x y : List Char) (h : SegOf p m) :
    SegOf p (x ++ m ++ y) := by
  obtain ⟨a, b, rfl⟩ := h
  exact ⟨x ++ a, b ++ y, by simp [List.append_assoc]⟩

theorem joinSep_mem_seg {sep : String} {L : List String} {x : String} (h : x ∈ L) :
    SegOf x.data (joinSep sep L).data := by
  induction L with
  | nil => cases h
  | cons a t ih =>
    cases t with
    | nil =>
      have hx : x = a := by simpa using h
      subst hx
      refine ⟨[], [], ?_⟩
      rw [show joinSep sep [x] = x from rfl]
      simp
    | cons b t2 =>
      rcases List.mem_cons.mp h with hx | hx
      · subst hx
        refine ⟨[], (sep ++ joinSep sep (b :: t2)).data, ?_⟩
        show (x ++ sep ++ joinSep sep (b :: t2)).data = _
        simp [sdata_append, List.append_assoc]
      · have hseg := ih hx
        have h2 : SegOf x.data ((a ++ sep).data ++ (joinSep sep (b :: t2)).data ++ []) :=
          SegOf_embed _ _ hseg
        have h3 : (joinSep sep (a :: b :: t2)).data
            = (a ++ sep).data ++ (joinSep sep (b :: t2)).data ++ [] := by
          show (a ++ sep ++ joinSep sep (b :: t2)).data = _
          simp [sdata_append]
        rw [h3]
        exact h2

theorem buildPrompt_decomp (diffs : List GitDiff) (config : Config)
    (recentCommits : List String) (branchName : String) :
    (buildPrompt diffs config recentCommits branchName).data
      = ((promptPre branchName ++ recentCtx recentCommits) ++ "\n\nCHANGES TO COMMIT:\n").data
        ++ (changesDescription diffs).data ++ (promptTail config).data := by
  show (promptPre branchName ++ recentCtx recentCommits ++ promptPost diffs config).data = _
  simp [promptPost, sdata_append, List.append_assoc]

theorem renderDiff_seg_prompt {diffs : List GitDiff} {d : GitDiff} (config : Config)
    (recentCommits : List String) (branchName : String) (h : d ∈ diffs) :
    SegOf (renderDiff d).data (buildPrompt diffs config recentCommits branchName).data := by
  rw [buildPrompt_decomp]
  exact SegOf_embed _ _ (joinSep_mem_seg (List.mem_map_of_mem renderDiff h))

theorem isPrefixOf_iff {p l : List Char} : p.isPrefixOf l = true ↔ ∃ t, l = p ++ t := by
  induction p generalizing l with
  | nil => simp [List.isPrefixOf]
  | cons a as ih =>
    cases l with
    | nil => simp [List.isPrefixOf]
    | cons b bs =>
      simp only [List.isPrefixOf, Bool.and_eq_true, beq_iff_eq, ih, List.cons_append]
      constructor
      · rintro ⟨rfl, t, rfl⟩
        exact ⟨t, rfl⟩
      · rintro ⟨t, heq⟩
        obtain ⟨h1, h2⟩ := List.cons.inj heq
        exact ⟨h1.symm, t, h2⟩

theorem occursIn_iff {p l : List Char} : occursIn p l = true ↔ SegOf p l := by
  induction l with
  | nil =>
    simp only [occursIn, SegOf, List.isEmpty_iff]
    constructor
    · rintro rfl
      exact ⟨[], [], rfl⟩
    · rintro ⟨a, b, heq⟩
      rcases List.append_eq_nil.mp heq.symm with ⟨h1, h2⟩
      rcases List.append_eq_nil.mp h1 with ⟨h3, h4⟩
      exact h4
  | cons c t ih =>
    simp only [occursIn, Bool.or_eq_true, ih, isPrefixOf_iff]
    constructor
    · rintro (⟨t2, heq⟩ | hseg)
      · exact ⟨[], t2, by simpa using heq⟩
      · obtain ⟨a, b, rfl⟩ := hseg
        exact ⟨c :: a, b, rfl⟩
    · rintro ⟨a, b, heq⟩
      cases a with
      | nil => exact Or.inl ⟨b, by simpa using heq⟩
      | cons a0 a1 =>
        obtain ⟨h1, h2⟩ := List.cons.inj (by simpa [List.cons_append] using heq)
        exact Or.inr ⟨a1, b, by rw [h2, ← List.append_assoc]⟩

/-! ### Membership lemmas for the two parse paths -/

theorem fallback_mem {s : String} {sug : CommitSuggestion} (h : sug ∈ fallback s) :
    ∃ l ∈ fallbackLines s, sug = mkFallbackSuggestion l := by
  unfold fallback at h
  have h2 := List.mem_of_mem_take h
  obtain ⟨l, hl, he⟩ := List.mem_map.mp h2
  exact ⟨l, hl, he.symm⟩

theorem fallbackLines_nonblank {s : String} {l : List Char} (h : l ∈ fallbackLines s) :
    trimChars l ≠ [] := by
  unfold fallbackLines at h
  have h1 := List.mem_of_mem_filter h
  have h2 := List.of_mem_filter h1
  intro hz
  rw [hz] at h2
  simp at h2

theorem parseResponse_mem_shape {s : String} {sug : CommitSuggestion}
    (h : sug ∈ parseResponse s) :
    (∃ e : Json, sug = mkSuggestion e) ∨
      (∃ l ∈ fallbackLines s, sug = mkFallbackSuggestion l) := by
  unfold parseResponse at h
  cases hst : structuredTry s with
  | error e =>
    simp only [hst] at h
    exact Or.inr (fallback_mem h)
  | ok o =>
    cases o with
    | none =>
      simp only [hst] at h
      exact Or.inr (fallback_mem h)
    | some l =>
      simp only [hst] at h
      obtain ⟨elems, rfl⟩ := structuredTry_ok_inv hst
      obtain ⟨e, _, he⟩ := List.mem_map.mp h
      exact Or.inl ⟨e, he.symm⟩

/-! ### Claim theorems -/

/-- C1: parseResponse returns a (possibly empty) suggestion list for every
input string and buildPrompt returns a string for all inputs; every
exception the try block of parseResponse can raise (a JSON.parse
SyntaxError or a TypeError from property access) is caught and degrades to
the fallback extraction, so the core raises no error for any input. -/
theorem c1_core_never_throws :
    (∀ s : String, ∃ l : List CommitSuggestion, parseResponse s = l) ∧
    (∀ (diffs : List GitDiff) (config : Config) (recentCommits : List String)
      (branchName : String),
      ∃ p : String, buildPrompt diffs config recentCommits branchName = p) ∧
    (∀ s : String, structuredTry s = Except.error () → parseResponse s = fallback s) := by
  refine ⟨fun s => ⟨parseResponse s, rfl⟩,
    fun d c r b => ⟨buildPrompt d c r b, rfl⟩, fun s h => ?_⟩
  unfold parseResponse
  rw [h]

/-- C1 witness: the empty response makes the structured path throw, and
parseResponse still returns (the fallback result). -/
theorem c1_core_never_throws_w : parseResponse "" = fallback "" :=
  c1_core_never_throws.2.2 "" rfl

/-- C2 counterexample: the claim says confidence defaults to 50 only when
the field is missing, but on the payload with an explicit confidence 0 the
code replaces the present value 0 (falsy in JS) with 50, so the returned
confidence is not the element's confidence. -/
theorem c2_claim_cex :
    jsonParse (cleanResponse "\x7b\"suggestions\":[\x7b\"message\":\"a\",\"confidence\":0\x7d]\x7d")
      = some (Json.obj [("suggestions", Json.arr
          [Json.obj [("message", Json.str "a"), ("confidence", Json.num 0)]])]) ∧
    parseResponse "\x7b\"suggestions\":[\x7b\"message\":\"a\",\"confidence\":0\x7d]\x7d"
      = [⟨Json.str "a", Json.num 50, Json.str "No reasoning provided"⟩] ∧
    Json.num 50 ≠ Json.num 0 := by
  refine ⟨rfl, rfl, fun h => ?_⟩
  have h2 : (50 : Rat) = 0 := Json.num.inj h
  norm_num at h2

/-- C2 (amended): on the structured path each element maps to a Suggestion
whose fields are the element's own message, confidence and reasoning when
those are present and truthy, with the defaults "" , 50 and "No reasoning
provided" substituted when the field is missing or falsy (empty string, 0,
false, null); the two concrete examples of the claim hold as stated. -/
theorem c2_structured_defaults :
    (∀ (s : String) (v : Json) (elems : List Json),
      jsonParse (cleanResponse s) = some v →
      jsField v "suggestions" = Except.ok (some (Json.arr elems)) →
      (∀ e ∈ elems, e ≠ Json.null) →
      parseResponse s = elems.map mkSuggestion) ∧
    parseResponse "\x7b\"suggestions\":[\x7b\"message\":\"fix bug\",\"confidence\":90,\"reasoning\":\"why\"\x7d]\x7d"
      = [⟨Json.str "fix bug", Json.num 90, Json.str "why"⟩] ∧
    parseResponse "\x7b\"suggestions\":[\x7b\"message\":\"x\"\x7d]\x7d"
      = [⟨Json.str "x", Json.num 50, Json.str "No reasoning provided"⟩] := by
  refine ⟨fun s v elems hj hf hn => ?_, rfl, rfl⟩
  exact parseResponse_of_structured (structuredTry_eval hj hf hn)

/-- C2 witness: the universal part applied to the first concrete payload
of the claim. -/
theorem c2_structured_defaults_w :
    parseResponse "\x7b\"suggestions\":[\x7b\"message\":\"fix bug\",\"confidence\":90,\"reasoning\":\"why\"\x7d]\x7d"
      = [⟨Json.str "fix bug", Json.num 90, Json.str "why"⟩] :=
  (c2_structured_defaults.1
    "\x7b\"suggestions\":[\x7b\"message\":\"fix bug\",\"confidence\":90,\"reasoning\":\"why\"\x7d]\x7d"
    (Json.obj [("suggestions", Json.arr [Json.obj [("message", Json.str "fix bug"),
      ("confidence", Json.num 90), ("reasoning", Json.str "why")]])])
    [Json.obj [("message", Json.str "fix bug"), ("confidence", Json.num 90),
      ("reasoning", Json.str "why")]]
    rfl rfl (by
      intro e he
      simp only [List.mem_singleton] at he
      subst he
      exact fun hh => Json.noConfusion hh)).trans rfl

/-- C3: wrapping a fence-free payload in a json-tagged or plain fenced
code block does not change the result of parseResponse: the markers are
stripped before structured interpretation (and the fence lines never
qualify on the fallback path either). -/
theorem c3_fence_wrapping (s : String) (h : hasFence s.data = false) :
    parseResponse (wrapJson s) = parseResponse s ∧
    parseResponse (wrapBare s) = parseResponse s :=
  ⟨parseResponse_clean_congr (clean_wrapJson h) (fallback_wrapJson s),
   parseResponse_clean_congr (clean_wrapBare h) (fallback_wrapBare s)⟩

/-- C3 witness: the wrapping invariance applied to a concrete structured
payload. -/
theorem c3_fence_wrapping_w :
    parseResponse (wrapJson "\x7b\"suggestions\":[\x7b\"message\":\"x\"\x7d]\x7d")
      = parseResponse "\x7b\"suggestions\":[\x7b\"message\":\"x\"\x7d]\x7d" ∧
    parseResponse (wrapBare "\x7b\"suggestions\":[\x7b\"message\":\"x\"\x7d]\x7d")
      = parseResponse "\x7b\"suggestions\":[\x7b\"message\":\"x\"\x7d]\x7d" :=
  c3_fence_wrapping "\x7b\"suggestions\":[\x7b\"message\":\"x\"\x7d]\x7d" (by decide)

/-- C4 counterexample: on a fallback input with four qualifying lines the
code returns only three Suggestions (slice(0, 3)), so parseResponse does
not return one Suggestion per qualifying line as the claim states. -/
theorem c4_per_line_cex :
    structuredTry "a: 1\nb: 2\nc: 3\nd: 4" = Except.error () ∧
    (fallbackLines "a: 1\nb: 2\nc: 3\nd: 4").length = 4 ∧
    (parseResponse "a: 1\nb: 2\nc: 3\nd: 4").length = 3 ∧
    parseResponse "a: 1\nb: 2\nc: 3\nd: 4"
      ≠ (fallbackLines "a: 1\nb: 2\nc: 3\nd: 4").map mkFallbackSuggestion := by
  refine ⟨rfl, rfl, rfl, fun h => ?_⟩
  have h2 := congrArg List.length h
  rw [show (parseResponse "a: 1\nb: 2\nc: 3\nd: 4").length = 3 from rfl,
    show ((fallbackLines "a: 1\nb: 2\nc: 3\nd: 4").map mkFallbackSuggestion).length = 4
      from rfl] at h2
  exact absurd h2 (by decide)

/-- C4 (amended): on the fallback path parseResponse returns, in original
line order, one Suggestion per non-blank line that contains a colon and
does not begin with a curly brace — trimmed message, confidence 70, fixed
rationale — truncated to at most the first 3 such lines; the claim's
concrete examples hold as stated. -/
theorem c4_fallback_truncated :
    (∀ s : String, structuredFails s →
      parseResponse s = ((fallbackLines s).map mkFallbackSuggestion).take 3) ∧
    parseResponse "not json at all\nfeat: add login\nrandom line without colon"
      = [⟨Json.str "feat: add login", Json.num 70, Json.str "Extracted from AI response"⟩] ∧
    parseResponse "" = [] :=
  ⟨fun _ h => parseResponse_of_fails h, rfl, rfl⟩

/-- C4 witness: the amended universal applied to the four-line input. -/
theorem c4_fallback_truncated_w :
    parseResponse "a: 1\nb: 2\nc: 3\nd: 4"
      = ((fallbackLines "a: 1\nb: 2\nc: 3\nd: 4").map mkFallbackSuggestion).take 3 :=
  c4_fallback_truncated.1 "a: 1\nb: 2\nc: 3\nd: 4" (fun l hl => by
    rw [show structuredTry "a: 1\nb: 2\nc: 3\nd: 4" = Except.error () from rfl] at hl
    exact Except.noConfusion hl)

/-- C5: the fallback path never yields more than 3 Suggestions (the list
is truncated by slice(0, 3)), while the structured path imposes no cap: a
structured payload with four records yields four Suggestions. -/
theorem c5_fallback_capped :
    (∀ s : String, (fallback s).length ≤ 3) ∧
    (∀ s : String, structuredFails s → (parseResponse s).length ≤ 3) ∧
    3 < (parseResponse "\x7b\"suggestions\":[\x7b\"message\":\"a\"\x7d,\x7b\"message\":\"b\"\x7d,\x7b\"message\":\"c\"\x7d,\x7b\"message\":\"d\"\x7d]\x7d").length := by
  refine ⟨fun s => ?_, fun s h => ?_, ?_⟩
  · unfold fallback
    exact List.length_take_le _ _
  · rw [parseResponse_of_fails h]
    unfold fallback
    exact List.length_take_le _ _
  · rw [show (parseResponse "\x7b\"suggestions\":[\x7b\"message\":\"a\"\x7d,\x7b\"message\":\"b\"\x7d,\x7b\"message\":\"c\"\x7d,\x7b\"message\":\"d\"\x7d]\x7d").length = 4 from rfl]
    omega

/-- C5 witness: the hypothesis-bearing part applied to a concrete
fallback input. -/
theorem c5_fallback_capped_w : (parseResponse "x: 1\ny: 2").length ≤ 3 :=
  c5_fallback_capped.2.1 "x: 1\ny: 2" (fun l hl => by
    rw [show structuredTry "x: 1\ny: 2" = Except.error () from rfl] at hl
    exact Except.noConfusion hl)

/-- C6: for every diff list, config, recent-commit list and branch name,
the prompt contains, for each record, its rendered block — file path,
parenthesized stat pair, status tag — and that block renders exactly the
first five of the record's change lines, hence never more than five. -/
theorem c6_render_per_diff (diffs : List GitDiff) (config : Config)
    (recentCommits : List String) (branchName : String) (d : GitDiff) (h : d ∈ diffs) :
    SegOf (renderDiff d).data (buildPrompt diffs config recentCommits branchName).data ∧
    renderDiff d = "File: " ++ d.file ++ " (+" ++ toString d.additions ++ "/-"
      ++ toString d.deletions ++ ")\nStatus: " ++ statusStr d.status
      ++ "\nKey changes:\n  " ++ joinSep "\n  " (d.changes.take 5) ∧
    (d.changes.take 5).length ≤ 5 :=
  ⟨renderDiff_seg_prompt config recentCommits branchName h, rfl, List.length_take_le _ _⟩

/-- C6 witness: the per-record rendering facts at a concrete record with
seven change lines. -/
theorem c6_render_per_diff_w :
    SegOf (renderDiff ⟨"src/a.ts", 3, 1, ["l1", "l2", "l3", "l4", "l5", "l6", "l7"],
        DiffStatus.modified⟩).data
      (buildPrompt [⟨"src/a.ts", 3, 1, ["l1", "l2", "l3", "l4", "l5", "l6", "l7"],
        DiffStatus.modified⟩] ⟨"", true, 72, false, none⟩ [] "main").data ∧
    renderDiff ⟨"src/a.ts", 3, 1, ["l1", "l2", "l3", "l4", "l5", "l6", "l7"],
        DiffStatus.modified⟩
      = "File: " ++ "src/a.ts" ++ " (+" ++ toString 3 ++ "/-" ++ toString 1
        ++ ")\nStatus: " ++ statusStr DiffStatus.modified ++ "\nKey changes:\n  "
        ++ joinSep "\n  " (["l1", "l2", "l3", "l4", "l5", "l6", "l7"].take 5) ∧
    ((["l1", "l2", "l3", "l4", "l5", "l6", "l7"] : List String).take 5).length ≤ 5 :=
  c6_render_per_diff
    [⟨"src/a.ts", 3, 1, ["l1", "l2", "l3", "l4", "l5", "l6", "l7"], DiffStatus.modified⟩]
    ⟨"", true, 72, false, none⟩ [] "main"
    ⟨"src/a.ts", 3, 1, ["l1", "l2", "l3", "l4", "l5", "l6", "l7"], DiffStatus.modified⟩
    (List.mem_singleton.mpr rfl)

set_option maxRecDepth 100000 in
/-- C7: buildPrompt factors through the recent-commits context block,
which is the empty string for an empty recent-commit list (the heading
block is omitted entirely and the prompt is the surrounding template
alone), and for a non-empty list renders the heading plus at most the
first five subjects in original order; the heading string does not occur
anywhere in a concrete no-recent-commits prompt. -/
theorem c7_recent_commits_block (diffs : List GitDiff) (config : Config)
    (branchName : String) (recentCommits : List String) :
    buildPrompt diffs config recentCommits branchName
      = promptPre branchName ++ recentCtx recentCommits ++ promptPost diffs config ∧
    recentCtx [] = "" ∧
    buildPrompt diffs config [] branchName
      = promptPre branchName ++ promptPost diffs config ∧
    (recentCommits ≠ [] → recentCtx recentCommits
      = "Recent commits for context:\n"
        ++ joinSep "\n" ((recentCommits.take 5).map (fun c => "- " ++ c)) ++ "\n\n") ∧
    (recentCommits.take 5).length ≤ 5 ∧
    recentCommits.take 5 ++ recentCommits.drop 5 = recentCommits ∧
    occursIn ("Recent commits for context:".data)
      (buildPrompt [] ⟨"", true, 72, false, none⟩ [] "main").data = false := by
  refine ⟨rfl, rfl, ?_, fun hne => ?_, List.length_take_le _ _,
    List.take_append_drop _ _, ?_⟩
  · show promptPre branchName ++ recentCtx [] ++ promptPost diffs config = _
    rw [show recentCtx [] = "" from rfl]
    apply sdata_inj
    simp [sdata_append]
  · unfold recentCtx
    rw [if_pos (show recentCommits.length > 0 from List.length_pos.mpr hne)]
  · rfl

/-- C7 witness: the non-empty branch of the context block at a concrete
two-element recent-commit list. -/
theorem c7_recent_commits_block_w :
    recentCtx ["c1", "c2"]
      = "Recent commits for context:\n"
        ++ joinSep "\n" (((["c1", "c2"] : List String).take 5).map (fun c => "- " ++ c))
        ++ "\n\n" :=
  (c7_recent_commits_block [] ⟨"", true, 72, false, none⟩ "main" ["c1", "c2"]).2.2.2.1
    (by simp)

/-- C8: buildPrompt is pure and deterministic — two calls with identical
diff records, config, recent commits and branch name produce identical
prompt strings; the output depends on nothing outside the arguments. -/
theorem c8_buildPrompt_deterministic (d1 d2 : List GitDiff) (c1 c2 : Config)
    (r1 r2 : List String) (b1 b2 : String)
    (hd : d1 = d2) (hc : c1 = c2) (hr : r1 = r2) (hb : b1 = b2) :
    buildPrompt d1 c1 r1 b1 = buildPrompt d2 c2 r2 b2 := by
  subst hd
  subst hc
  subst hr
  subst hb
  rfl

/-- C8 witness: determinism applied at a concrete argument tuple. -/
theorem c8_buildPrompt_deterministic_w :
    buildPrompt [] ⟨"", true, 72, false, none⟩ [] "main"
      = buildPrompt [] ⟨"", true, 72, false, none⟩ [] "main" :=
  c8_buildPrompt_deterministic [] [] ⟨"", true, 72, false, none⟩ ⟨"", true, 72, false, none⟩
    [] [] "main" "main" rfl rfl rfl rfl

/-- C9 counterexample: on the structured payload whose only record has
confidence 150 and no message field, parseResponse returns a Suggestion
with the empty-string message and confidence 150, refuting the claim that
every returned Suggestion has a non-empty message and confidence in
[0, 100]. -/
theorem c9_invariant_cex :
    parseResponse "\x7b\"suggestions\":[\x7b\"confidence\":150\x7d]\x7d"
      = [⟨Json.str "", Json.num 150, Json.str "No reasoning provided"⟩] ∧
    ¬ (∀ sug ∈ parseResponse "\x7b\"suggestions\":[\x7b\"confidence\":150\x7d]\x7d",
        (∃ m, sug.message = Json.str m ∧ m ≠ "") ∧
        (∃ q : Rat, sug.confidence = Json.num q ∧ 0 ≤ q ∧ q ≤ 100 ∧ q.den = 1)) := by
  refine ⟨rfl, fun hall => ?_⟩
  have hmem : (⟨Json.str "", Json.num 150, Json.str "No reasoning provided"⟩ : CommitSuggestion)
      ∈ parseResponse "\x7b\"suggestions\":[\x7b\"confidence\":150\x7d]\x7d" := by
    rw [show parseResponse "\x7b\"suggestions\":[\x7b\"confidence\":150\x7d]\x7d"
      = [⟨Json.str "", Json.num 150, Json.str "No reasoning provided"⟩] from rfl]
    exact List.mem_singleton.mpr rfl
  obtain ⟨⟨m, hm, hmne⟩, -⟩ := hall _ hmem
  exact hmne (Json.str.inj hm).symm

/-- C9 (amended): every Suggestion produced via the fallback path has a
non-empty message (the trimmed text of a non-blank line), confidence
exactly 70 — an integer within [0, 100] — and the fixed extraction
rationale; the structured path copies payload values unvalidated, so
there the invariant can fail (see the counterexample). -/
theorem c9_fallback_invariant (s : String) (hf : structuredFails s)
    (sug : CommitSuggestion) (h : sug ∈ parseResponse s) :
    (∃ m, sug.message = Json.str m ∧ m ≠ "") ∧
    sug.confidence = Json.num 70 ∧ (0 : Rat) ≤ 70 ∧ (70 : Rat) ≤ 100 ∧
    sug.reasoning = Json.str "Extracted from AI response" := by
  rw [parseResponse_of_fails hf] at h
  obtain ⟨l, hl, rfl⟩ := fallback_mem h
  exact ⟨⟨String.mk (trimChars l), rfl, smk_ne_empty (fallbackLines_nonblank hl)⟩,
    rfl, by norm_num, by norm_num, rfl⟩

/-- C9 witness: the fallback invariant at a concrete extracted line. -/
theorem c9_fallback_invariant_w :
    (∃ m, (⟨Json.str "feat: add login", Json.num 70,
        Json.str "Extracted from AI response"⟩ : CommitSuggestion).message
      = Json.str m ∧ m ≠ "") ∧
    (⟨Json.str "feat: add login", Json.num 70,
        Json.str "Extracted from AI response"⟩ : CommitSuggestion).confidence
      = Json.num 70 ∧ (0 : Rat) ≤ 70 ∧ (70 : Rat) ≤ 100 ∧
    (⟨Json.str "feat: add login", Json.num 70,
        Json.str "Extracted from AI response"⟩ : CommitSuggestion).reasoning
      = Json.str "Extracted from AI response" :=
  c9_fallback_invariant "not json at all\nfeat: add login\nrandom line without colon"
    (fun l hl => by
      rw [show structuredTry "not json at all\nfeat: add login\nrandom line without colon"
        = Except.error () from rfl] at hl
      exact Except.noConfusion hl)
    ⟨Json.str "feat: add login", Json.num 70, Json.str "Extracted from AI response"⟩
    (by
      rw [show parseResponse "not json at all\nfeat: add login\nrandom line without colon"
        = [⟨Json.str "feat: add login", Json.num 70,
            Json.str "Extracted from AI response"⟩] from rfl]
      exact List.mem_singleton.mpr rfl)

/-- C10: every Suggestion returned by parseResponse has a truthy (hence
non-empty when it is a string) rationale: the structured path substitutes
the placeholder for any falsy reasoning value — including a present empty
string, as the concrete payload shows — and the fallback rationale is the
fixed non-empty extraction string. -/
theorem c10_rationale_nonempty :
    (∀ (s : String) (sug : CommitSuggestion), sug ∈ parseResponse s →
      jsTruthy sug.reasoning = true ∧ (∀ m, sug.reasoning = Json.str m → m ≠ "")) ∧
    parseResponse "\x7b\"suggestions\":[\x7b\"message\":\"a\",\"reasoning\":\"\"\x7d]\x7d"
      = [⟨Json.str "a", Json.num 50, Json.str "No reasoning provided"⟩] := by
  refine ⟨fun s sug h => ?_, rfl⟩
  have ht : jsTruthy sug.reasoning = true := by
    rcases parseResponse_mem_shape h with ⟨e, rfl⟩ | ⟨l, -, rfl⟩
    · exact jsTruthy_jsOr (by decide)
    · rfl
  exact ⟨ht, jsTruthy_str_ne ht⟩

/-- C10 witness: the rationale invariant at a concrete structured-path
Suggestion whose reasoning field was absent. -/
theorem c10_rationale_nonempty_w :
    jsTruthy (⟨Json.str "x", Json.num 50,
        Json.str "No reasoning provided"⟩ : CommitSuggestion).reasoning = true ∧
    (∀ m, (⟨Json.str "x", Json.num 50,
        Json.str "No reasoning provided"⟩ : CommitSuggestion).reasoning
      = Json.str m → m ≠ "") :=
  c10_rationale_nonempty.1 "\x7b\"suggestions\":[\x7b\"message\":\"x\"\x7d]\x7d"
    ⟨Json.str "x", Json.num 50, Json.str "No reasoning provided"⟩
    (by
      rw [show parseResponse "\x7b\"suggestions\":[\x7b\"message\":\"x\"\x7d]\x7d"
        = [⟨Json.str "x", Json.num 50, Json.str "No reasoning provided"⟩] from rfl]
      exact List.mem_singleton.mpr rfl)

end GCA
